import Mathlib

/-!
Shallow embedding of the Fibonacci halo2 example circuit (src/example1.rs),
together with a model of the PLONKish assignment and checking engine it runs
on (column registry, region layouter, witness grid, copy-constraint tracker,
satisfiability checker).  The circuit-level definitions (`FiboChip.configure`,
`FiboChip.assign_first_row`, `FiboChip.assign_row`,
`FibonacciCircuit.synthesize`, the `main` constants) are translated from the
source file; the engine primitives they call are not part of this repository
(they live in the external `halo2_proofs` crate), so those are modelled from
the specification, as marked on each definition.
-/

namespace Halo2Fib

/-- Kind of a column: witness (Advice), circuit constant (Fixed) or public
input (Instance). -/
inductive ColumnKind where
  | Advice
  | Fixed
  | Instance
deriving DecidableEq

/-- A column: an allocation index together with its kind. -/
structure Column where
  index : Nat
  kind : ColumnKind
deriving DecidableEq

/-- A selector: a per-row boolean flag identified by an allocation index. -/
structure Selector where
  index : Nat
deriving DecidableEq

/-- A cell position: (advice column index, absolute row). -/
structure Cell where
  column : Nat
  row : Nat
deriving DecidableEq

/-- Symbolic gate expression over selector and advice queries; the `advice`
constructor carries the column index and the rotation (relative row offset).
The example circuit only ever uses rotation 0 (`Rotation::cur()`). -/
inductive Expression (F : Type) where
  | const : F → Expression F
  | selectorQ : Nat → Expression F
  | advice : Nat → Int → Expression F
  | neg : Expression F → Expression F
  | add : Expression F → Expression F → Expression F
  | mul : Expression F → Expression F → Expression F
deriving DecidableEq

/-- A named gate: a list of polynomial constraints required to vanish. -/
structure Gate (F : Type) where
  name : String
  polys : List (Expression F)
deriving DecidableEq

/-- Modelled from the spec: the constraint system populated during the
configure phase (column registry, equality-enabled set, gate list). -/
structure ConstraintSystem (F : Type) where
  numAdvice : Nat
  numFixed : Nat
  numInstance : Nat
  numSelectors : Nat
  eqEnabled : List Nat
  gates : List (Gate F)
deriving DecidableEq

variable {F : Type}

/-- Modelled from the spec: the empty constraint system before configure. -/
def emptyCS (F : Type) : ConstraintSystem F :=
  { numAdvice := 0, numFixed := 0, numInstance := 0, numSelectors := 0,
    eqEnabled := [], gates := [] }

/-- Modelled from the spec: `meta.advice_column()` allocates a fresh advice
column. -/
def ConstraintSystem.advice_column (m : ConstraintSystem F) :
    Column × ConstraintSystem F :=
  (⟨m.numAdvice, ColumnKind.Advice⟩, { m with numAdvice := m.numAdvice + 1 })

/-- Modelled from the spec: `meta.selector()` allocates a fresh selector. -/
def ConstraintSystem.selector (m : ConstraintSystem F) :
    Selector × ConstraintSystem F :=
  (⟨m.numSelectors⟩, { m with numSelectors := m.numSelectors + 1 })

/-- Modelled from the spec: `meta.enable_equality(col)` marks a column as
eligible for copy constraints. -/
def ConstraintSystem.enable_equality (m : ConstraintSystem F) (c : Column) :
    ConstraintSystem F :=
  { m with eqEnabled := m.eqEnabled ++ [c.index] }

/-- Modelled from the spec: `meta.create_gate(name, ...)` appends a gate. -/
def ConstraintSystem.create_gate (m : ConstraintSystem F) (g : Gate F) :
    ConstraintSystem F :=
  { m with gates := m.gates ++ [g] }

/-- The configuration returned by `FiboChip::configure`: three advice columns
and one selector. -/
structure FiboConfig where
  advice : Fin 3 → Column
  select : Selector

/-- Translated from `FiboChip::configure` (src/example1.rs lines 36-64):
allocates `col_a`, `col_b`, `col_c` and a selector, enables equality on all
three advice columns, and registers the gate
`s * (a + b - c)` (queried at the current row).  In halo2 the Rust expression
`a + b - c` is `Sum (Sum a b) (Negated c)`, which is how it is built here. -/
def FiboChip.configure (m : ConstraintSystem F) :
    ConstraintSystem F × FiboConfig :=
  let (col_a, m1) := m.advice_column
  let (col_b, m2) := m1.advice_column
  let (col_c, m3) := m2.advice_column
  let (sel, m4) := m3.selector
  let m5 := m4.enable_equality col_a
  let m6 := m5.enable_equality col_b
  let m7 := m6.enable_equality col_c
  let m8 := m7.create_gate
    ⟨"add",
      [Expression.mul (Expression.selectorQ sel.index)
        (Expression.add
          (Expression.add (Expression.advice col_a.index 0)
            (Expression.advice col_b.index 0))
          (Expression.neg (Expression.advice col_c.index 0)))]⟩
  (m8, { advice := ![col_a, col_b, col_c], select := sel })

/-- The constraint system produced by running configure on the empty system. -/
def fiboCS (F : Type) : ConstraintSystem F := (FiboChip.configure (emptyCS F)).1

/-- The configuration produced by running configure on the empty system. -/
def fiboConfig (F : Type) : FiboConfig := (FiboChip.configure (emptyCS F)).2

/-- The single polynomial of the registered "add" gate:
`selector * ((a + b) + (- c))`, all advice queries at rotation 0. -/
def addGatePoly (F : Type) : Expression F :=
  Expression.mul (Expression.selectorQ 0)
    (Expression.add
      (Expression.add (Expression.advice 0 0) (Expression.advice 1 0))
      (Expression.neg (Expression.advice 2 0)))

/-- The registered "add" gate. -/
def addGate (F : Type) : Gate F := ⟨"add", [addGatePoly F]⟩

/-- Error kinds of the engine, from the specification's error model.  The
example exercises `Synthesis` (missing witness value) and the
column-without-equality error rejected by `copy_advice`. -/
inductive Error where
  | Synthesis
  | ColumnNotEqualityEnabled
  | DoubleAssignment
  | RegionOverlap
deriving DecidableEq

/-- A cell handle returned by an assignment: its position and its (optional)
value, mirroring halo2's `AssignedCell`. -/
structure AssignedCell (F : Type) where
  cell : Cell
  value : Option F
deriving DecidableEq

/-- The source wraps `AssignedCell` in a newtype `ACell`; the wrapper adds no
data, so it is modelled as the same type. -/
abbrev ACell := AssignedCell

/-- Modelled from the spec: the synthesis-time state accumulated by the
layouter — the witness grid (association list, most recent first), enabled
selector rows, recorded copy constraints, the floor planner's next free
absolute row, and the list of (start, length) regions handed out. -/
structure SynthState (F : Type) where
  grid : List (Cell × F)
  selectors : List (Nat × Nat)
  copies : List (Cell × Cell)
  nextRow : Nat
  regions : List (Nat × Nat)
deriving DecidableEq

/-- The empty synthesis state. -/
def initState (F : Type) : SynthState F :=
  { grid := [], selectors := [], copies := [], nextRow := 0, regions := [] }

/-- Look a cell up in the witness grid (first match wins). -/
def lookupGrid (g : List (Cell × F)) (c : Cell) : Option F :=
  match g with
  | [] => none
  | (c', v) :: rest => if c' = c then some v else lookupGrid rest c

/-- Modelled from the spec: propagate a value to an unassigned cell through a
recorded copy constraint whose partner is assigned. -/
def copyFallback (copies : List (Cell × Cell)) (g : List (Cell × F))
    (c : Cell) : Option F :=
  match copies with
  | [] => none
  | (c₁, c₂) :: rest =>
      if c₁ = c then
        match lookupGrid g c₂ with
        | some v => some v
        | none => copyFallback rest g c
      else if c₂ = c then
        match lookupGrid g c₁ with
        | some v => some v
        | none => copyFallback rest g c
      else copyFallback rest g c

/-- Modelled from the spec: resolve a cell's value — its directly assigned
value if present, otherwise a value propagated through a copy constraint. -/
def resolve (st : SynthState F) (c : Cell) : Option F :=
  match lookupGrid st.grid c with
  | some v => some v
  | none => copyFallback st.copies st.grid c

/-- The value of an advice cell as seen by the checker (absent cells read as
zero; the example's enabled rows always have all three cells assigned). -/
def adviceVal [Zero F] (st : SynthState F) (row col : Nat) : F :=
  (resolve st ⟨col, row⟩).getD 0

/-- Modelled from the spec: `selector.enable(region, 0)` marks the selector
on at the region's absolute row. -/
def Selector.enable (sel : Selector) (row : Nat) (st : SynthState F) :
    SynthState F :=
  { st with selectors := (sel.index, row) :: st.selectors }

/-- Modelled from the spec: `region.assign_advice(col, offset, value)` —
writes a fresh value into the grid; an absent value fails with `Synthesis`
(never silently treated as zero). -/
def assign_advice (col : Column) (row : Nat) (v : Option F)
    (st : SynthState F) : Except Error (AssignedCell F × SynthState F) :=
  match v with
  | none => Except.error Error.Synthesis
  | some x =>
      Except.ok (⟨⟨col.index, row⟩, some x⟩,
        { st with grid := (⟨col.index, row⟩, x) :: st.grid })

/-- Modelled from the spec: `source.copy_advice(region, col, offset)` —
writes the source cell's value into the new cell AND records a copy
constraint between the two cells; fails with the column-not-equality-enabled
error if either column lacks equality, and with `Synthesis` if the source has
no value. -/
def AssignedCell.copy_advice (src : AssignedCell F) (cs : ConstraintSystem F)
    (col : Column) (row : Nat) (st : SynthState F) :
    Except Error (AssignedCell F × SynthState F) :=
  if src.cell.column ∈ cs.eqEnabled ∧ col.index ∈ cs.eqEnabled then
    match src.value with
    | none => Except.error Error.Synthesis
    | some x =>
        Except.ok (⟨⟨col.index, row⟩, some x⟩,
          { st with
            grid := (⟨col.index, row⟩, x) :: st.grid,
            copies := (src.cell, ⟨col.index, row⟩) :: st.copies })
  else Except.error Error.ColumnNotEqualityEnabled

/-- Translated from `FiboChip::assign_first_row` (src/example1.rs lines
66-92): one region of height 1 (the floor planner hands out the next free
absolute row); enables the selector at relative row 0, assigns `a`, `b` and
`c = a + b` into the three advice columns. -/
def FiboChip.assign_first_row [Add F] (cs : ConstraintSystem F)
    (config : FiboConfig) (a b : Option F) (st : SynthState F) :
    Except Error ((ACell F × ACell F × ACell F) × SynthState F) := do
  let row := st.nextRow
  let st := { st with regions := st.regions ++ [(row, 1)], nextRow := row + 1 }
  let st := config.select.enable row st
  let (a_cell, st) ← assign_advice (config.advice 0) row a st
  let (b_cell, st) ← assign_advice (config.advice 1) row b st
  let c_val := a.bind fun x => b.map fun y => x + y
  let (c_cell, st) ← assign_advice (config.advice 2) row c_val st
  return ((a_cell, b_cell, c_cell), st)

/-- Translated from `FiboChip::assign_row` (src/example1.rs lines 94-110):
one region of height 1; enables the selector at relative row 0, copies
`prev_b` into column a and `prev_c` into column b of the new row (recording
copy constraints), and assigns `c = prev_b + prev_c`. -/
def FiboChip.assign_row [Add F] (cs : ConstraintSystem F)
    (config : FiboConfig) (prev_b prev_c : ACell F) (st : SynthState F) :
    Except Error (ACell F × SynthState F) := do
  let row := st.nextRow
  let st := { st with regions := st.regions ++ [(row, 1)], nextRow := row + 1 }
  let st := config.select.enable row st
  let (_, st) ← prev_b.copy_advice cs (config.advice 0) row st
  let (_, st) ← prev_c.copy_advice cs (config.advice 1) row st
  let c_val := prev_b.value.bind fun x => prev_c.value.map fun y => x + y
  let (c_cell, st) ← assign_advice (config.advice 2) row c_val st
  return (c_cell, st)

/-- The `for _ in 3..10` loop body of `synthesize`, generalized over the
number of iterations (7 in the source): repeatedly assign a row and shift
`(prev_b, prev_c) := (prev_c, c_cell)`. -/
def synthLoop [Add F] (cs : ConstraintSystem F) (config : FiboConfig) :
    Nat → ACell F → ACell F → SynthState F →
    Except Error (ACell F × SynthState F)
  | 0, _, prev_c, st => Except.ok (prev_c, st)
  | n + 1, prev_b, prev_c, st => do
      let (c_cell, st) ← FiboChip.assign_row cs config prev_b prev_c st
      synthLoop cs config n prev_c c_cell st

/-- The synthesis pipeline generalized over the number of recurrence regions
`n` (the source fixes `n = 7`), returning the last cell and final state. -/
def synthesizeGen [Add F] (cs : ConstraintSystem F) (config : FiboConfig)
    (n : Nat) (a b : Option F) (st : SynthState F) :
    Except Error (ACell F × SynthState F) := do
  let ((_, prev_b, prev_c), st) ← FiboChip.assign_first_row cs config a b st
  synthLoop cs config n prev_b prev_c st

/-- The circuit struct: optional seed witnesses `a`, `b`
(src/example1.rs lines 113-117). -/
structure FibonacciCircuit (F : Type) where
  a : Option F
  b : Option F
deriving DecidableEq

/-- Translated from `without_witnesses` (src/example1.rs lines 125-127):
the `Default` circuit has both seeds absent. -/
def FibonacciCircuit.without_witnesses (_ : FibonacciCircuit F) :
    FibonacciCircuit F :=
  { a := none, b := none }

/-- Translated from `FibonacciCircuit::synthesize` (src/example1.rs lines
138-155): first row, then 7 recurrence rows. -/
def FibonacciCircuit.synthesize [Add F] (circuit : FibonacciCircuit F)
    (cs : ConstraintSystem F) (config : FiboConfig) (st : SynthState F) :
    Except Error (SynthState F) :=
  (synthesizeGen cs config 7 circuit.a circuit.b st).map Prod.snd

/-- Run configure and a generalized synthesize (`n` recurrence regions) from
the empty state, returning the final cell and state. -/
def runFib (F : Type) [Add F] (n : Nat) (a b : Option F) :
    Except Error (ACell F × SynthState F) :=
  synthesizeGen (fiboCS F) (fiboConfig F) n a b (initState F)

/-- The regions allocated by a synthesis run (empty when it failed). -/
def resultRegions (r : Except Error (ACell F × SynthState F)) :
    List (Nat × Nat) :=
  match r with
  | Except.ok p => p.2.regions
  | Except.error _ => []

/-- Absolute row `row` lies inside the region `(start, len)`. -/
def inRegion (row : Nat) (r : Nat × Nat) : Prop :=
  r.1 ≤ row ∧ row < r.1 + r.2

/-- Modelled from the spec: evaluate a gate expression at a row against the
witness grid (resolving cells through the copy tracker, absent cells read as
zero; a selector query reads 1 where enabled, 0 elsewhere). -/
def evalExpr [CommRing F] (st : SynthState F) (row : Nat) :
    Expression F → F
  | Expression.const c => c
  | Expression.selectorQ s => if (s, row) ∈ st.selectors then 1 else 0
  | Expression.advice col rot =>
      (resolve st ⟨col, ((row : Int) + rot).toNat⟩).getD 0
  | Expression.neg e => - evalExpr st row e
  | Expression.add e₁ e₂ => evalExpr st row e₁ + evalExpr st row e₂
  | Expression.mul e₁ e₂ => evalExpr st row e₁ * evalExpr st row e₂

/-- Modelled from the spec: the gates whose constraints fail at `row`,
reported as (gate name, row). -/
def rowViolations [CommRing F] [DecidableEq F] (cs : ConstraintSystem F)
    (st : SynthState F) (row : Nat) : List (String × Nat) :=
  (cs.gates.filter fun g =>
      !(g.polys.all fun e => decide (evalExpr st row e = 0))).map
    fun g => (g.name, row)

/-- Modelled from the spec: gate violations over rows `0 .. rows - 1`. -/
def gateViolations [CommRing F] [DecidableEq F] (cs : ConstraintSystem F)
    (st : SynthState F) : Nat → List (String × Nat)
  | 0 => []
  | rows + 1 => gateViolations cs st rows ++ rowViolations cs st rows

/-- Modelled from the spec: the recorded copy constraints whose two sides
resolve to different values. -/
def copyViolations [DecidableEq F] (st : SynthState F) :
    List (Cell × Cell) :=
  st.copies.filter fun p => !(decide (resolve st p.1 = resolve st p.2))

/-- Modelled from the spec: the satisfiability checker (mock prover) passes
iff there are no gate violations over the `rows` checked rows and no copy
violations. -/
def isSatisfied [CommRing F] [DecidableEq F] (cs : ConstraintSystem F)
    (st : SynthState F) (rows : Nat) : Bool :=
  (gateViolations cs st rows).isEmpty && (copyViolations st).isEmpty

/-- Every advice query in an expression is at rotation 0. -/
def adviceRotationsZero : Expression F → Bool
  | Expression.const _ => true
  | Expression.selectorQ _ => true
  | Expression.advice _ rot => decide (rot = 0)
  | Expression.neg e => adviceRotationsZero e
  | Expression.add e₁ e₂ => adviceRotationsZero e₁ && adviceRotationsZero e₂
  | Expression.mul e₁ e₂ => adviceRotationsZero e₁ && adviceRotationsZero e₂

/-- The pair `(aₙ, aₙ₊₁)` of the recurrence `a₀ = a, a₁ = b,
aᵢ₊₂ = aᵢ + aᵢ₊₁`. -/
def fibPair [Add F] (a b : F) : Nat → F × F
  | 0 => (a, b)
  | n + 1 => ((fibPair a b n).2, (fibPair a b n).1 + (fibPair a b n).2)

/-- The `n`-th term of the recurrence `a₀ = a, a₁ = b, aᵢ₊₂ = aᵢ + aᵢ₊₁`. -/
def fibTerm [Add F] (a b : F) (n : Nat) : F := (fibPair a b n).1

/-- The modulus of the Pasta `Fp` base field used by `main`
(`halo2_proofs::pasta::Fp`, the Pallas base field). -/
def pastaP : Nat :=
  0x40000000000000000000000000000000224698fc094cf91b992d30ed00000001

/-- The concrete field `main` instantiates the circuit at. -/
abbrev Fp := ZMod pastaP

/-- `main`'s circuit-size parameter `k = 4` (src/example1.rs line 159); the
mock prover checks `2 ^ k` rows. -/
def mainK : Nat := 4

/-- `main`'s first seed `a = Fp::from(1)`. -/
def mainA : Fp := 1

/-- `main`'s second seed `b = Fp::from(1)`. -/
def mainB : Fp := 1

/-- `main`'s expected output `out = Fp::from(55)`. -/
def mainOut : Fp := 55

/-- The circuit instance built by `main` (src/example1.rs lines 165-168). -/
def mainCircuit : FibonacciCircuit Fp := { a := some mainA, b := some mainB }

/-- The public-input bundle `main` passes to `MockProver::run`: the empty
vector `vec![]` (src/example1.rs line 171). -/
def mainInstances : List (List Fp) := []

/-- A one-row state with the selector enabled and values (1, 2, 3) in the
three advice columns, used to exercise the gate semantics concretely. -/
def wStOn : SynthState Fp :=
  { grid := [(⟨0, 0⟩, 1), (⟨1, 0⟩, 2), (⟨2, 0⟩, 3)],
    selectors := [(0, 0)], copies := [], nextRow := 1, regions := [(0, 1)] }

/-- The same one-row state with the selector disabled. -/
def wStOff : SynthState Fp :=
  { grid := [(⟨0, 0⟩, 1), (⟨1, 0⟩, 2), (⟨2, 0⟩, 3)],
    selectors := [], copies := [], nextRow := 1, regions := [(0, 1)] }

/-- The state produced by copying a cell holding 5 from (0,0) into (1,0). -/
def c5St' : SynthState Fp :=
  { grid := [(⟨1, 0⟩, 5)], selectors := [], copies := [(⟨0, 0⟩, ⟨1, 0⟩)],
    nextRow := 0, regions := [] }

/-- A state in which the two copy-linked cells (0,0) and (1,0) carry the
different values 5 and 6. -/
def c5St2 : SynthState Fp :=
  { grid := [(⟨1, 0⟩, 6), (⟨0, 0⟩, 5)], selectors := [],
    copies := [(⟨0, 0⟩, ⟨1, 0⟩)], nextRow := 2, regions := [] }

/-- The state after one `assign_first_row` region placed at `st.nextRow`:
selector enabled, `x`, `y`, `x + y` written into columns 0, 1, 2. -/
def firstPost [Add F] (st : SynthState F) (x y : F) : SynthState F :=
  { grid := (⟨2, st.nextRow⟩, x + y) :: (⟨1, st.nextRow⟩, y) ::
      (⟨0, st.nextRow⟩, x) :: st.grid,
    selectors := (0, st.nextRow) :: st.selectors,
    copies := st.copies,
    nextRow := st.nextRow + 1,
    regions := st.regions ++ [(st.nextRow, 1)] }

/-- The state after one `assign_row` region placed at `st.nextRow`: selector
enabled, `x`, `y`, `x + y` written into columns 0, 1, 2, and copy constraints
from the previous cells `pbc`, `pcc` onto the new row's columns 0 and 1. -/
def rowPost [Add F] (st : SynthState F) (pbc pcc : Cell) (x y : F) :
    SynthState F :=
  { grid := (⟨2, st.nextRow⟩, x + y) :: (⟨1, st.nextRow⟩, y) ::
      (⟨0, st.nextRow⟩, x) :: st.grid,
    selectors := (0, st.nextRow) :: st.selectors,
    copies := (pcc, ⟨1, st.nextRow⟩) :: (pbc, ⟨0, st.nextRow⟩) :: st.copies,
    nextRow := st.nextRow + 1,
    regions := st.regions ++ [(st.nextRow, 1)] }

/-- A cell handle is coherent with the state: its value is recorded both in
the handle and in the grid, its column has equality enabled, and its row is
below the floor planner's cursor. -/
structure CellOk (st : SynthState F) (cell : ACell F) (v : F) : Prop where
  val : cell.value = some v
  mem : lookupGrid st.grid cell.cell = some v
  col : cell.cell.column ∈ (fiboCS F).eqEnabled
  row : cell.cell.row < st.nextRow

/-- Invariant maintained by the synthesis pass: every grid entry, selector
activation and copy constraint lives strictly below the cursor; both sides of
every copy constraint carry one consistent value; every selector-enabled row
has `c = a + b` across its three advice cells; regions are laid out in order,
within bounds, pairwise disjoint, each with the selector enabled at its
relative row 0. -/
structure Inv [Add F] (st : SynthState F) : Prop where
  grid_lt : ∀ p ∈ st.grid, (Prod.fst p).row < st.nextRow
  sel_lt : ∀ p ∈ st.selectors, Prod.snd p < st.nextRow
  copies_ok : ∀ p ∈ st.copies,
    ∃ v, lookupGrid st.grid (Prod.fst p) = some v ∧
      lookupGrid st.grid (Prod.snd p) = some v
  sel_gate : ∀ row : Nat, ((0 : Nat), row) ∈ st.selectors →
    ∃ x y, lookupGrid st.grid ⟨0, row⟩ = some x ∧
      lookupGrid st.grid ⟨1, row⟩ = some y ∧
      lookupGrid st.grid ⟨2, row⟩ = some (x + y)
  reg_bound : ∀ r ∈ st.regions, Prod.fst r + Prod.snd r ≤ st.nextRow
  reg_sorted : st.regions.Pairwise fun r₁ r₂ => r₁.1 + r₁.2 ≤ r₂.1
  reg_sel : ∀ r ∈ st.regions, ((0 : Nat), Prod.fst r) ∈ st.selectors

section Lemmas

theorem lookupGrid_cons_self (g : List (Cell × F)) (c : Cell) (x : F) :
    lookupGrid ((c, x) :: g) c = some x := by
  simp [lookupGrid]

theorem lookupGrid_cons_ne (g : List (Cell × F)) (c c' : Cell) (x : F)
    (h : c' ≠ c) : lookupGrid ((c', x) :: g) c = lookupGrid g c := by
  simp [lookupGrid, h]

theorem lookupGrid_mem {g : List (Cell × F)} {c : Cell} {v : F}
    (h : lookupGrid g c = some v) : (c, v) ∈ g := by
  induction g with
  | nil => simp [lookupGrid] at h
  | cons p rest ih =>
      obtain ⟨c', x⟩ := p
      by_cases hc : c' = c
      · subst hc
        rw [lookupGrid_cons_self] at h
        obtain rfl : x = v := Option.some.inj h
        exact List.mem_cons_self _ _
      · rw [lookupGrid_cons_ne _ _ _ _ hc] at h
        exact List.mem_cons_of_mem _ (ih h)

theorem resolve_of_lookup {st : SynthState F} {c : Cell} {v : F}
    (h : lookupGrid st.grid c = some v) : resolve st c = some v := by
  unfold resolve
  rw [h]

theorem cell_ne_of_row_lt {c : Cell} {col R : Nat} (hc : c.row < R) :
    (⟨col, R⟩ : Cell) ≠ c := by
  intro h
  rw [← h] at hc
  exact lt_irrefl R hc

/-- Lookups of cells strictly below row `R` pass through the three new
entries a region writes at row `R`. -/
theorem lookup_post_old {g : List (Cell × F)} (x y z : F) {c : Cell} {R : Nat}
    (hc : c.row < R) :
    lookupGrid ((⟨2, R⟩, z) :: (⟨1, R⟩, y) :: (⟨0, R⟩, x) :: g) c =
      lookupGrid g c := by
  rw [lookupGrid_cons_ne _ _ _ _ (cell_ne_of_row_lt hc),
    lookupGrid_cons_ne _ _ _ _ (cell_ne_of_row_lt hc),
    lookupGrid_cons_ne _ _ _ _ (cell_ne_of_row_lt hc)]

theorem lookup_post_new0 (g : List (Cell × F)) (x y z : F) (R : Nat) :
    lookupGrid ((⟨2, R⟩, z) :: (⟨1, R⟩, y) :: (⟨0, R⟩, x) :: g) ⟨0, R⟩ =
      some x := by
  rw [lookupGrid_cons_ne _ _ _ _ (by simp), lookupGrid_cons_ne _ _ _ _ (by simp),
    lookupGrid_cons_self]

theorem lookup_post_new1 (g : List (Cell × F)) (x y z : F) (R : Nat) :
    lookupGrid ((⟨2, R⟩, z) :: (⟨1, R⟩, y) :: (⟨0, R⟩, x) :: g) ⟨1, R⟩ =
      some y := by
  rw [lookupGrid_cons_ne _ _ _ _ (by simp), lookupGrid_cons_self]

theorem lookup_post_new2 (g : List (Cell × F)) (x y z : F) (R : Nat) :
    lookupGrid ((⟨2, R⟩, z) :: (⟨1, R⟩, y) :: (⟨0, R⟩, x) :: g) ⟨2, R⟩ =
      some z := by
  rw [lookupGrid_cons_self]

theorem copy_advice_eq (src : AssignedCell F) (cs : ConstraintSystem F)
    (col : Column) (row : Nat) (st : SynthState F) (v : F)
    (hv : src.value = some v) (h1 : src.cell.column ∈ cs.eqEnabled)
    (h2 : col.index ∈ cs.eqEnabled) :
    src.copy_advice cs col row st =
      Except.ok (⟨⟨col.index, row⟩, some v⟩,
        { st with
          grid := (⟨col.index, row⟩, v) :: st.grid,
          copies := (src.cell, ⟨col.index, row⟩) :: st.copies }) := by
  unfold AssignedCell.copy_advice
  rw [if_pos ⟨h1, h2⟩, hv]

theorem assign_first_row_eq [Add F] (x y : F) (st : SynthState F) :
    FiboChip.assign_first_row (fiboCS F) (fiboConfig F) (some x) (some y) st =
      Except.ok
        ((⟨⟨0, st.nextRow⟩, some x⟩, ⟨⟨1, st.nextRow⟩, some y⟩,
          ⟨⟨2, st.nextRow⟩, some (x + y)⟩), firstPost st x y) := rfl

theorem assign_row_eq [Add F] (pb pc : ACell F) (x y : F) (st : SynthState F)
    (hb : pb.value = some x) (hc : pc.value = some y)
    (hcb : pb.cell.column ∈ (fiboCS F).eqEnabled)
    (hcc : pc.cell.column ∈ (fiboCS F).eqEnabled) :
    FiboChip.assign_row (fiboCS F) (fiboConfig F) pb pc st =
      Except.ok (⟨⟨2, st.nextRow⟩, some (x + y)⟩,
        rowPost st pb.cell pc.cell x y) := by
  obtain ⟨⟨bcol, brow⟩, bval⟩ := pb
  obtain ⟨⟨ccol, crow⟩, cval⟩ := pc
  simp only [AssignedCell.value] at hb hc
  subst hb hc
  have heq : (fiboCS F).eqEnabled = [0, 1, 2] := rfl
  rw [heq] at hcb hcc
  simp only [AssignedCell.cell, List.mem_cons, List.mem_singleton,
    List.not_mem_nil, or_false] at hcb hcc
  rcases hcb with rfl | rfl | rfl <;> rcases hcc with rfl | rfl | rfl <;> rfl

theorem fiboCS_eq_enabled : (fiboCS F).eqEnabled = [0, 1, 2] := rfl

theorem fiboCS_gates : (fiboCS F).gates = [addGate F] := rfl

theorem inv_init [Add F] : Inv (initState F) := by
  constructor <;> simp [initState]

theorem cellOk_mono_first [Add F] {st : SynthState F} {cell : ACell F} {v : F}
    (x y : F) (h : CellOk st cell v) : CellOk (firstPost st x y) cell v := by
  refine ⟨h.val, ?_, h.col, Nat.lt_succ_of_lt h.row⟩
  simp only [firstPost]
  rw [lookup_post_old _ _ _ h.row]
  exact h.mem

theorem cellOk_mono_row [Add F] {st : SynthState F} {cell : ACell F} {v : F}
    (pbc pcc : Cell) (x y : F) (h : CellOk st cell v) :
    CellOk (rowPost st pbc pcc x y) cell v := by
  refine ⟨h.val, ?_, h.col, Nat.lt_succ_of_lt h.row⟩
  simp only [rowPost]
  rw [lookup_post_old _ _ _ h.row]
  exact h.mem

theorem cellOk_first_b [Add F] (st : SynthState F) (x y : F) :
    CellOk (firstPost st x y) ⟨⟨1, st.nextRow⟩, some y⟩ y := by
  refine ⟨rfl, ?_, ?_, Nat.lt_succ_self _⟩
  · simp only [firstPost]
    exact lookup_post_new1 _ _ _ _ _
  · rw [fiboCS_eq_enabled]; simp

theorem cellOk_first_c [Add F] (st : SynthState F) (x y : F) :
    CellOk (firstPost st x y) ⟨⟨2, st.nextRow⟩, some (x + y)⟩ (x + y) := by
  refine ⟨rfl, ?_, ?_, Nat.lt_succ_self _⟩
  · simp only [firstPost]
    exact lookup_post_new2 _ _ _ _ _
  · rw [fiboCS_eq_enabled]; simp

theorem cellOk_new_row [Add F] (st : SynthState F) (pbc pcc : Cell) (x y : F) :
    CellOk (rowPost st pbc pcc x y) ⟨⟨2, st.nextRow⟩, some (x + y)⟩ (x + y) := by
  refine ⟨rfl, ?_, ?_, Nat.lt_succ_self _⟩
  · simp only [rowPost]
    exact lookup_post_new2 _ _ _ _ _
  · rw [fiboCS_eq_enabled]; simp

theorem inv_firstPost [Add F] {st : SynthState F} (hinv : Inv st) (x y : F) :
    Inv (firstPost st x y) := by
  obtain ⟨hg, hs, hcp, hsg, hrb, hrs, hrsel⟩ := hinv
  constructor
  case grid_lt =>
    intro p hp
    simp only [firstPost, List.mem_cons] at hp
    rcases hp with rfl | rfl | rfl | hp
    · exact Nat.lt_succ_self _
    · exact Nat.lt_succ_self _
    · exact Nat.lt_succ_self _
    · exact Nat.lt_succ_of_lt (hg p hp)
  case sel_lt =>
    intro p hp
    simp only [firstPost, List.mem_cons] at hp
    rcases hp with rfl | hp
    · exact Nat.lt_succ_self _
    · exact Nat.lt_succ_of_lt (hs p hp)
  case copies_ok =>
    intro p hp
    simp only [firstPost] at hp
    obtain ⟨v, h1, h2⟩ := hcp p hp
    have r1 : (Prod.fst p).row < st.nextRow := hg _ (lookupGrid_mem h1)
    have r2 : (Prod.snd p).row < st.nextRow := hg _ (lookupGrid_mem h2)
    refine ⟨v, ?_, ?_⟩
    · simp only [firstPost]
      rw [lookup_post_old _ _ _ r1]
      exact h1
    · simp only [firstPost]
      rw [lookup_post_old _ _ _ r2]
      exact h2
  case sel_gate =>
    intro row hrow
    simp only [firstPost, List.mem_cons] at hrow
    rcases hrow with heq | hrow
    · have : row = st.nextRow := congrArg Prod.snd heq
      subst this
      refine ⟨x, y, ?_, ?_, ?_⟩ <;> simp only [firstPost]
      · exact lookup_post_new0 _ _ _ _ _
      · exact lookup_post_new1 _ _ _ _ _
      · exact lookup_post_new2 _ _ _ _ _
    · obtain ⟨x', y', h0, h1, h2⟩ := hsg row hrow
      have hr : row < st.nextRow := hs _ hrow
      refine ⟨x', y', ?_, ?_, ?_⟩ <;> simp only [firstPost]
      · rw [lookup_post_old _ _ _ hr]; exact h0
      · rw [lookup_post_old _ _ _ hr]; exact h1
      · rw [lookup_post_old _ _ _ hr]; exact h2
  case reg_bound =>
    intro r hr
    simp only [firstPost, List.mem_append, List.mem_singleton] at hr
    rcases hr with hr | rfl
    · exact Nat.le_succ_of_le (hrb r hr)
    · exact Nat.le_refl _
  case reg_sorted =>
    simp only [firstPost]
    refine List.pairwise_append.mpr ⟨hrs, List.pairwise_singleton _ _, ?_⟩
    intro r hr r' hr'
    simp only [List.mem_singleton] at hr'
    subst hr'
    exact hrb r hr
  case reg_sel =>
    intro r hr
    simp only [firstPost, List.mem_append, List.mem_singleton] at hr ⊢
    rcases hr with hr | rfl
    · exact List.mem_cons_of_mem _ (hrsel r hr)
    · exact List.mem_cons_self _ _

theorem inv_rowPost [Add F] {st : SynthState F} {pb pc : ACell F} {x y : F}
    (hinv : Inv st) (hpb : CellOk st pb x) (hpc : CellOk st pc y) :
    Inv (rowPost st pb.cell pc.cell x y) := by
  obtain ⟨hg, hs, hcp, hsg, hrb, hrs, hrsel⟩ := hinv
  constructor
  case grid_lt =>
    intro p hp
    simp only [rowPost, List.mem_cons] at hp
    rcases hp with rfl | rfl | rfl | hp
    · exact Nat.lt_succ_self _
    · exact Nat.lt_succ_self _
    · exact Nat.lt_succ_self _
    · exact Nat.lt_succ_of_lt (hg p hp)
  case sel_lt =>
    intro p hp
    simp only [rowPost, List.mem_cons] at hp
    rcases hp with rfl | hp
    · exact Nat.lt_succ_self _
    · exact Nat.lt_succ_of_lt (hs p hp)
  case copies_ok =>
    intro p hp
    simp only [rowPost, List.mem_cons] at hp
    rcases hp with rfl | rfl | hp
    · refine ⟨y, ?_, ?_⟩ <;> simp only [rowPost]
      · rw [lookup_post_old _ _ _ hpc.row]; exact hpc.mem
      · exact lookup_post_new1 _ _ _ _ _
    · refine ⟨x, ?_, ?_⟩ <;> simp only [rowPost]
      · rw [lookup_post_old _ _ _ hpb.row]; exact hpb.mem
      · exact lookup_post_new0 _ _ _ _ _
    · obtain ⟨v, h1, h2⟩ := hcp p hp
      have r1 : (Prod.fst p).row < st.nextRow := hg _ (lookupGrid_mem h1)
      have r2 : (Prod.snd p).row < st.nextRow := hg _ (lookupGrid_mem h2)
      refine ⟨v, ?_, ?_⟩ <;> simp only [rowPost]
      · rw [lookup_post_old _ _ _ r1]; exact h1
      · rw [lookup_post_old _ _ _ r2]; exact h2
  case sel_gate =>
    intro row hrow
    simp only [rowPost, List.mem_cons] at hrow
    rcases hrow with heq | hrow
    · have : row = st.nextRow := congrArg Prod.snd heq
      subst this
      refine ⟨x, y, ?_, ?_, ?_⟩ <;> simp only [rowPost]
      · exact lookup_post_new0 _ _ _ _ _
      · exact lookup_post_new1 _ _ _ _ _
      · exact lookup_post_new2 _ _ _ _ _
    · obtain ⟨x', y', h0, h1, h2⟩ := hsg row hrow
      have hr : row < st.nextRow := hs _ hrow
      refine ⟨x', y', ?_, ?_, ?_⟩ <;> simp only [rowPost]
      · rw [lookup_post_old _ _ _ hr]; exact h0
      · rw [lookup_post_old _ _ _ hr]; exact h1
      · rw [lookup_post_old _ _ _ hr]; exact h2
  case reg_bound =>
    intro r hr
    simp only [rowPost, List.mem_append, List.mem_singleton] at hr
    rcases hr with hr | rfl
    · exact Nat.le_succ_of_le (hrb r hr)
    · exact Nat.le_refl _
  case reg_sorted =>
    simp only [rowPost]
    refine List.pairwise_append.mpr ⟨hrs, List.pairwise_singleton _ _, ?_⟩
    intro r hr r' hr'
    simp only [List.mem_singleton] at hr'
    subst hr'
    exact hrb r hr
  case reg_sel =>
    intro r hr
    simp only [rowPost, List.mem_append, List.mem_singleton] at hr ⊢
    rcases hr with hr | rfl
    · exact List.mem_cons_of_mem _ (hrsel r hr)
    · exact List.mem_cons_self _ _

theorem fibPair_shift [Add F] (x y : F) :
    ∀ n : Nat, fibPair y (x + y) n = fibPair x y (n + 1)
  | 0 => rfl
  | n + 1 => by
      show ((fibPair y (x + y) n).2,
        (fibPair y (x + y) n).1 + (fibPair y (x + y) n).2) = _
      rw [fibPair_shift x y n]
      rfl

theorem fib_shift_term [Add F] (a b : F) (n : Nat) :
    (fibPair b (a + b) n).2 = fibTerm a b (n + 2) := by
  show (fibPair b (a + b) n).2 = (fibPair a b (n + 2)).1
  rw [show (fibPair a b (n + 2)).1 = (fibPair a b (n + 1)).2 from rfl,
    ← fibPair_shift a b n]

theorem synthLoop_ok [Add F] (n : Nat) :
    ∀ (pb pc : ACell F) (x y : F) (st : SynthState F), Inv st →
      CellOk st pb x → CellOk st pc y →
      ∃ cOut stOut,
        synthLoop (fiboCS F) (fiboConfig F) n pb pc st =
          Except.ok (cOut, stOut) ∧
        Inv stOut ∧ CellOk stOut cOut ((fibPair x y n).2) := by
  induction n with
  | zero =>
      intro pb pc x y st hinv _ hpc
      exact ⟨pc, st, rfl, hinv, hpc⟩
  | succ n ih =>
      intro pb pc x y st hinv hpb hpc
      have harow := assign_row_eq pb pc x y st hpb.val hpc.val hpb.col hpc.col
      obtain ⟨cOut, stOut, heq, hinvO, hcellO⟩ :=
        ih pc ⟨⟨2, st.nextRow⟩, some (x + y)⟩ y (x + y)
          (rowPost st pb.cell pc.cell x y) (inv_rowPost hinv hpb hpc)
          (cellOk_mono_row pb.cell pc.cell x y hpc)
          (cellOk_new_row st pb.cell pc.cell x y)
      refine ⟨cOut, stOut, ?_, hinvO, ?_⟩
      · show (do
            let (c_cell, st) ←
              FiboChip.assign_row (fiboCS F) (fiboConfig F) pb pc st
            synthLoop (fiboCS F) (fiboConfig F) n pc c_cell st) =
          Except.ok (cOut, stOut)
        rw [harow]
        exact heq
      · rw [fibPair_shift x y n] at hcellO
        exact hcellO

theorem runFib_ok [Add F] (n : Nat) (a b : F) :
    ∃ cOut stOut,
      runFib F n (some a) (some b) = Except.ok (cOut, stOut) ∧ Inv stOut ∧
      CellOk stOut cOut (fibTerm a b (n + 2)) := by
  obtain ⟨cOut, stOut, heq, hinv, hcell⟩ :=
    synthLoop_ok n ⟨⟨1, (0 : Nat)⟩, some b⟩ ⟨⟨2, (0 : Nat)⟩, some (a + b)⟩
      b (a + b) (firstPost (initState F) a b)
      (inv_firstPost inv_init a b)
      (cellOk_first_b (initState F) a b) (cellOk_first_c (initState F) a b)
  refine ⟨cOut, stOut, ?_, hinv, ?_⟩
  · unfold runFib synthesizeGen
    rw [assign_first_row_eq a b (initState F)]
    exact heq
  · rw [fib_shift_term a b n] at hcell
    exact hcell

theorem filter_nil_of_false {α : Type} (p : α → Bool) :
    ∀ l : List α, (∀ a ∈ l, p a = false) → l.filter p = []
  | [], _ => rfl
  | a :: l, h => by
      rw [List.filter_cons, h a (List.mem_cons_self a l)]
      simp only [Bool.false_eq_true, if_false]
      exact filter_nil_of_false p l fun b hb => h b (List.mem_cons_of_mem a hb)

theorem evalExpr_addGatePoly [CommRing F] (st : SynthState F) (row : Nat) :
    evalExpr st row (addGatePoly F) =
      (if ((0 : Nat), row) ∈ st.selectors then (1 : F) else 0) *
        ((resolve st ⟨0, row⟩).getD 0 + (resolve st ⟨1, row⟩).getD 0 +
          -((resolve st ⟨2, row⟩).getD 0)) := by
  have hrow : ((row : Int) + 0).toNat = row := by omega
  simp [evalExpr, addGatePoly, hrow]

theorem evalExpr_addGatePoly_zero [CommRing F] {st : SynthState F}
    (hinv : Inv st) (row : Nat) : evalExpr st row (addGatePoly F) = 0 := by
  rw [evalExpr_addGatePoly]
  by_cases h : ((0 : Nat), row) ∈ st.selectors
  · obtain ⟨x, y, h0, h1, h2⟩ := hinv.sel_gate row h
    rw [if_pos h, resolve_of_lookup h0, resolve_of_lookup h1,
      resolve_of_lookup h2]
    simp only [Option.getD_some, one_mul]
    ring
  · rw [if_neg h, zero_mul]

theorem rowViolations_nil [CommRing F] [DecidableEq F] {st : SynthState F}
    (hinv : Inv st) (row : Nat) : rowViolations (fiboCS F) st row = [] := by
  have hz : decide (evalExpr st row (addGatePoly F) = 0) = true :=
    decide_eq_true (evalExpr_addGatePoly_zero hinv row)
  simp [rowViolations, fiboCS_gates, addGate, hz]

theorem gateViolations_nil [CommRing F] [DecidableEq F] {st : SynthState F}
    (hinv : Inv st) : ∀ rows : Nat, gateViolations (fiboCS F) st rows = []
  | 0 => rfl
  | rows + 1 => by
      show gateViolations (fiboCS F) st rows ++
        rowViolations (fiboCS F) st rows = []
      rw [gateViolations_nil hinv rows, rowViolations_nil hinv rows]
      rfl

theorem copyViolations_nil [DecidableEq F] {st : SynthState F}
    (hcp : ∀ p ∈ st.copies, ∃ v,
      lookupGrid st.grid (Prod.fst p) = some v ∧
      lookupGrid st.grid (Prod.snd p) = some v) :
    copyViolations st = [] := by
  unfold copyViolations
  apply filter_nil_of_false
  intro p hp
  obtain ⟨v, h1, h2⟩ := hcp p hp
  rw [resolve_of_lookup h1, resolve_of_lookup h2]
  rw [decide_eq_true (Eq.refl (some v))]
  rfl

theorem isSatisfied_of_inv [CommRing F] [DecidableEq F] {st : SynthState F}
    (hinv : Inv st) (rows : Nat) : isSatisfied (fiboCS F) st rows = true := by
  unfold isSatisfied
  rw [gateViolations_nil hinv rows, copyViolations_nil hinv.copies_ok]
  rfl

theorem synthesizeGen_missing [Add F] (n : Nat) (a b : Option F)
    (st : SynthState F) (h : a = none ∨ b = none) :
    synthesizeGen (fiboCS F) (fiboConfig F) n a b st =
      Except.error Error.Synthesis := by
  rcases h with rfl | rfl
  · rfl
  · cases a with
    | none => rfl
    | some x => rfl

end Lemmas

/-- C1: running configure, synthesize and the satisfiability check on the
example circuit with seeds a = 1, b = 1 and 7 recurrence rows after the seed
row assigns the value 55 to the final c cell, and the check passes with zero
gate violations and zero copy violations over the 2 ^ k = 16 checked rows. -/
theorem c1_example_final_value_and_check :
    (runFib Fp 7 (some mainA) (some mainB)).map (fun p => p.1.value) =
      Except.ok (some mainOut) ∧
    (runFib Fp 7 (some mainA) (some mainB)).map
        (fun p => (gateViolations (fiboCS Fp) p.2 (2 ^ mainK),
          copyViolations p.2)) =
      Except.ok ([], []) :=
  ⟨rfl, rfl⟩

/-- C2: the single registered gate is named "add" with the one constraint
`selector * (a + b - c)` over the three advice columns at the same row; at
any row where the selector is active the constraint vanishes exactly when
the c value equals the sum of the a and b values, and at any row where the
selector is inactive the constraint vanishes regardless of the values. -/
theorem c2_gate_semantics (F : Type) [CommRing F] [DecidableEq F]
    (st : SynthState F) (row : Nat) :
    (fiboCS F).gates = [⟨"add", [addGatePoly F]⟩] ∧
    (((0 : Nat), row) ∈ st.selectors →
      (evalExpr st row (addGatePoly F) = 0 ↔
        adviceVal st row 2 = adviceVal st row 0 + adviceVal st row 1)) ∧
    (((0 : Nat), row) ∉ st.selectors →
      evalExpr st row (addGatePoly F) = 0) := by
  refine ⟨rfl, ?_, ?_⟩
  · intro h
    rw [evalExpr_addGatePoly, if_pos h, one_mul]
    simp only [adviceVal]
    constructor
    · intro hz
      linear_combination -hz
    · intro he
      rw [he]
      ring
  · intro h
    rw [evalExpr_addGatePoly, if_neg h, zero_mul]

/-- Witness for C2 at a concrete state over Fp: with the selector enabled
and (1, 2, 3) in the advice columns the vanishing of the gate is equivalent
to 3 = 1 + 2, and with the selector disabled the gate evaluates to zero. -/
theorem c2_gate_semantics_witness :
    (evalExpr wStOn 0 (addGatePoly Fp) = 0 ↔
      adviceVal wStOn 0 2 = adviceVal wStOn 0 0 + adviceVal wStOn 0 1) ∧
    evalExpr wStOff 0 (addGatePoly Fp) = 0 :=
  ⟨(c2_gate_semantics Fp wStOn 0).2.1 (by decide),
   (c2_gate_semantics Fp wStOff 0).2.2 (by decide)⟩

/-- C3 counterexample: with seeds a = 0, b = 1 and N = 2 occupied rows (the
seed row plus one recurrence row), the final cell holds 2 = a₃, whereas the
(N − 1)-th recurrence term is a₁ = 1, and 2 ≠ 1 in Fp. -/
theorem c3_counterexample :
    (runFib Fp 1 (some 0) (some 1)).map (fun p => p.1.value) =
      Except.ok (some 2) ∧
    fibTerm (0 : Fp) 1 (2 - 1) = 1 ∧ (2 : Fp) ≠ 1 :=
  ⟨rfl, rfl, by decide⟩

/-- C3 (amended): for every seed pair (a, b) and every count n of recurrence
regions, the synthesis run assigns the recurrence term a_{n+2} to the final
c cell — with N = n + 1 occupied rows that is the (N+1)-th term, not the
(N−1)-th; at the implemented count n = 7 the final c cell holds a₉. -/
theorem c3_final_cell_holds_term (F : Type) [CommRing F] (a b : F)
    (n : Nat) :
    (runFib F n (some a) (some b)).map (fun p => p.1.value) =
      Except.ok (some (fibTerm a b (n + 2))) ∧
    (runFib F 7 (some a) (some b)).map (fun p => p.1.value) =
      Except.ok (some (fibTerm a b 9)) := by
  obtain ⟨c1, s1, he, -, hc⟩ := runFib_ok n a b
  obtain ⟨c7, s7, he7, -, hc7⟩ := runFib_ok 7 a b
  constructor
  · rw [he]
    show Except.ok ((c1, s1).1.value) = _
    rw [hc.val]
  · rw [he7]
    show Except.ok ((c7, s7).1.value) = _
    rw [hc7.val]

/-- C4: a circuit instance with an absent witness value (in particular the
one produced by `without_witnesses`, whose two seeds are both absent) makes
synthesize fail with the `Synthesis` error instead of substituting zero. -/
theorem c4_missing_witness_synthesis_error (F : Type) [CommRing F]
    (circ : FibonacciCircuit F) (a b : Option F)
    (h : a = none ∨ b = none) :
    (circ.without_witnesses).a = none ∧ (circ.without_witnesses).b = none ∧
    FibonacciCircuit.synthesize ⟨a, b⟩ (fiboCS F) (fiboConfig F)
        (initState F) = Except.error Error.Synthesis := by
  refine ⟨rfl, rfl, ?_⟩
  unfold FibonacciCircuit.synthesize
  rw [synthesizeGen_missing 7 a b (initState F) h]
  rfl

/-- Witness for C4 over Fp with both seeds absent. -/
theorem c4_missing_witness_synthesis_error_witness :
    (FibonacciCircuit.without_witnesses
        (⟨some 1, some 1⟩ : FibonacciCircuit Fp)).a = none ∧
    (FibonacciCircuit.without_witnesses
        (⟨some 1, some 1⟩ : FibonacciCircuit Fp)).b = none ∧
    FibonacciCircuit.synthesize (⟨none, none⟩ : FibonacciCircuit Fp)
        (fiboCS Fp) (fiboConfig Fp) (initState Fp) =
      Except.error Error.Synthesis :=
  c4_missing_witness_synthesis_error Fp ⟨some 1, some 1⟩ none none
    (Or.inl rfl)

/-- C5: a successful `copy_advice` from a source cell holding v writes a new
cell whose resolved value is v and records a copy constraint between the two
cells; and in any state where the linked pair carries two different values
the checker reports a copy-constraint violation. -/
theorem c5_copy_advice_roundtrip (F : Type) [CommRing F] [DecidableEq F]
    (cs : ConstraintSystem F) (src new : AssignedCell F) (v w : F)
    (col : Column) (row : Nat) (st st' st2 : SynthState F)
    (hv : src.value = some v)
    (h : src.copy_advice cs col row st = Except.ok (new, st')) :
    (resolve st' new.cell = some v ∧ (src.cell, new.cell) ∈ st'.copies) ∧
    ((src.cell, new.cell) ∈ st2.copies → resolve st2 src.cell = some v →
      resolve st2 new.cell = some w → w ≠ v → copyViolations st2 ≠ []) := by
  constructor
  · unfold AssignedCell.copy_advice at h
    by_cases hcond : src.cell.column ∈ cs.eqEnabled ∧
        col.index ∈ cs.eqEnabled
    · rw [if_pos hcond, hv] at h
      obtain ⟨h1, h2⟩ := Prod.mk.inj (Except.ok.inj h)
      subst h1
      subst h2
      constructor
      · exact resolve_of_lookup (lookupGrid_cons_self _ _ _)
      · exact List.mem_cons_self _ _
    · rw [if_neg hcond] at h
      exact Except.noConfusion h
  · intro hmem h1 h2 hne hnil
    have hv2 : (src.cell, new.cell) ∈ copyViolations st2 := by
      unfold copyViolations
      rw [List.mem_filter]
      refine ⟨hmem, ?_⟩
      show (!(decide (resolve st2 src.cell = resolve st2 new.cell))) = true
      rw [h1, h2,
        decide_eq_false fun hvw => hne (Option.some.inj hvw).symm]
      rfl
    rw [hnil] at hv2
    exact List.not_mem_nil _ hv2

/-- Witness for C5 over Fp: copying value 5 from cell (0,0) into (1,0)
resolves to 5 and records the constraint, and the state `c5St2` in which the
linked cells hold 5 and 6 has a nonempty copy-violation list. -/
theorem c5_copy_advice_roundtrip_witness :
    (resolve c5St' (⟨1, 0⟩ : Cell) = some (5 : Fp) ∧
      ((⟨0, 0⟩ : Cell), (⟨1, 0⟩ : Cell)) ∈ c5St'.copies) ∧
    copyViolations c5St2 ≠ [] :=
  have h := c5_copy_advice_roundtrip Fp (fiboCS Fp) ⟨⟨0, 0⟩, some 5⟩
    ⟨⟨1, 0⟩, some 5⟩ 5 6 ⟨1, ColumnKind.Advice⟩ 0 (initState Fp) c5St'
    c5St2 rfl rfl
  ⟨h.1, h.2 (by decide) (by decide) (by decide) (by decide)⟩

/-- C6 counterexample: configure allocates no instance column and `main`
passes the empty public-input vector, so the seeds are not carried in
instance-column cells and are not bound as public inputs. -/
theorem c6_counterexample :
    ¬ (0 < (fiboCS Fp).numInstance) ∧ mainInstances = [] :=
  ⟨by decide, rfl⟩

/-- C6 (amended): the example circuit binds no public inputs — configure
allocates three advice columns and zero instance columns, `main` runs the
checker with the empty instance list, and the seeds enter the grid as
private advice witnesses at cells (0,0) and (1,0). -/
theorem c6_no_public_inputs :
    (fiboCS Fp).numInstance = 0 ∧ (fiboCS Fp).numAdvice = 3 ∧
    mainInstances = [] ∧
    (runFib Fp 7 (some mainA) (some mainB)).map
        (fun p => (lookupGrid p.2.grid ⟨0, 0⟩, lookupGrid p.2.grid ⟨1, 0⟩)) =
      Except.ok (some mainA, some mainB) :=
  ⟨rfl, rfl, rfl, rfl⟩

/-- C7: for any sequence of region assignments performed by a synthesize
run, the absolute-row ranges of any two distinct regions are disjoint — no
absolute row is used by more than one region. -/
theorem c7_regions_disjoint (F : Type) [CommRing F] (n : Nat)
    (a b : Option F) :
    (resultRegions (runFib F n a b)).Pairwise
      (fun r₁ r₂ => ∀ row : Nat, ¬ (inRegion row r₁ ∧ inRegion row r₂)) := by
  cases a with
  | none =>
      rw [show runFib F n none b = Except.error Error.Synthesis from
        synthesizeGen_missing n none b (initState F) (Or.inl rfl)]
      exact List.Pairwise.nil
  | some x =>
      cases b with
      | none =>
          rw [show runFib F n (some x) none = Except.error Error.Synthesis
            from synthesizeGen_missing n (some x) none (initState F)
              (Or.inr rfl)]
          exact List.Pairwise.nil
      | some y =>
          obtain ⟨c, stOut, heq, hinv, -⟩ := runFib_ok n x y
          rw [heq]
          refine List.Pairwise.imp ?_ hinv.reg_sorted
          intro r₁ r₂ hle row hcontra
          obtain ⟨⟨h11, h12⟩, h21, h22⟩ := hcontra
          omega

/-- C8: every advice query of the registered gate is at rotation 0 (the gate
never inspects a previous row), and a successful `assign_row` records the
cross-row equalities as copy constraints from the previous b and c cells
into columns 0 and 1 of the freshly allocated row. -/
theorem c8_rotation_zero_and_copies (F : Type) [CommRing F]
    (pb pc : ACell F) (x y : F) (st : SynthState F)
    (hb : pb.value = some x) (hc : pc.value = some y)
    (hcb : pb.cell.column ∈ (fiboCS F).eqEnabled)
    (hcc : pc.cell.column ∈ (fiboCS F).eqEnabled) :
    (∀ g ∈ (fiboCS F).gates, ∀ e ∈ g.polys, adviceRotationsZero e = true) ∧
    ∃ c st', FiboChip.assign_row (fiboCS F) (fiboConfig F) pb pc st =
        Except.ok (c, st') ∧
      (pb.cell, (⟨0, st.nextRow⟩ : Cell)) ∈ st'.copies ∧
      (pc.cell, (⟨1, st.nextRow⟩ : Cell)) ∈ st'.copies := by
  constructor
  · intro g hg e he
    rw [fiboCS_gates] at hg
    simp only [List.mem_singleton] at hg
    subst hg
    simp only [addGate, List.mem_singleton] at he
    subst he
    rfl
  · refine ⟨_, _, assign_row_eq pb pc x y st hb hc hcb hcc, ?_, ?_⟩
    · exact List.mem_cons_of_mem _ (List.mem_cons_self _ _)
    · exact List.mem_cons_self _ _

/-- Witness for C8 over Fp: assigning a row after cells (1,0) and (2,0)
holding 1 and 2 succeeds and records both copy constraints onto row 0. -/
theorem c8_rotation_zero_and_copies_witness :
    (∀ g ∈ (fiboCS Fp).gates, ∀ e ∈ g.polys,
      adviceRotationsZero e = true) ∧
    ∃ c st', FiboChip.assign_row (fiboCS Fp) (fiboConfig Fp)
        ⟨⟨1, 0⟩, some (1 : Fp)⟩ ⟨⟨2, 0⟩, some (2 : Fp)⟩ (initState Fp) =
        Except.ok (c, st') ∧
      ((⟨1, 0⟩ : Cell), (⟨0, 0⟩ : Cell)) ∈ st'.copies ∧
      ((⟨2, 0⟩ : Cell), (⟨1, 0⟩ : Cell)) ∈ st'.copies :=
  c8_rotation_zero_and_copies Fp ⟨⟨1, 0⟩, some 1⟩ ⟨⟨2, 0⟩, some 2⟩ 1 2
    (initState Fp) rfl rfl (by decide) (by decide)

/-- C9: every region created by synthesize enables the gate's selector at
its relative row 0, every selector-enabled row has its c cell equal to the
sum of its a and b cells, and for every present seed pair the synthesis
succeeds and the checker passes over the 2 ^ k checked rows. -/
theorem c9_all_seeds_satisfied (F : Type) [CommRing F] [DecidableEq F]
    (a b : F) :
    ∃ st, FibonacciCircuit.synthesize ⟨some a, some b⟩ (fiboCS F)
        (fiboConfig F) (initState F) = Except.ok st ∧
      (∀ r ∈ st.regions, ((0 : Nat), Prod.fst r) ∈ st.selectors) ∧
      (∀ row : Nat, ((0 : Nat), row) ∈ st.selectors →
        ∃ x y, lookupGrid st.grid ⟨0, row⟩ = some x ∧
          lookupGrid st.grid ⟨1, row⟩ = some y ∧
          lookupGrid st.grid ⟨2, row⟩ = some (x + y)) ∧
      isSatisfied (fiboCS F) st (2 ^ mainK) = true := by
  obtain ⟨c, stOut, heq, hinv, -⟩ := runFib_ok 7 a b
  refine ⟨stOut, ?_, hinv.reg_sel, hinv.sel_gate, isSatisfied_of_inv hinv _⟩
  unfold FibonacciCircuit.synthesize
  show (runFib F 7 (some a) (some b)).map Prod.snd = Except.ok stOut
  rw [heq]
  rfl

/-- C10: configure enables equality on all three advice columns (indices
0, 1, 2), and no synthesis run — with or without witnesses — ever returns
the column-not-equality-enabled error. -/
theorem c10_no_equality_error (F : Type) [CommRing F] (n : Nat)
    (a b : Option F) :
    (fiboCS F).eqEnabled = [0, 1, 2] ∧
    runFib F n a b ≠ Except.error Error.ColumnNotEqualityEnabled := by
  refine ⟨rfl, ?_⟩
  cases a with
  | none =>
      rw [show runFib F n none b = Except.error Error.Synthesis from
        synthesizeGen_missing n none b (initState F) (Or.inl rfl)]
      intro hcontr
      exact Error.noConfusion (Except.error.inj hcontr)
  | some x =>
      cases b with
      | none =>
          rw [show runFib F n (some x) none = Except.error Error.Synthesis
            from synthesizeGen_missing n (some x) none (initState F)
              (Or.inr rfl)]
          intro hcontr
          exact Error.noConfusion (Except.error.inj hcontr)
      | some y =>
          obtain ⟨c, stOut, heq, -, -⟩ := runFib_ok n x y
          rw [heq]
          intro hcontr
          exact Except.noConfusion hcontr

end Halo2Fib
